import Mathlib

/-!
Shallow embedding of the `stm` Go package (`stm.go`): a minimal message-driven
state-machine engine.  Messages are opaque interface values (here: `Msg α`),
commands are thunks returning a message (`Cmd α`, invocation = `Cmd.run`), the
dispatcher `Send` executes a command and funnels the resulting messages into
the machine's bounded queue, recursively unrolling `batched` results.  A
nondeterministic small-step relation `Step` models the scheduler loop
(`Stm.loop`), the buffered channel, in-flight dispatcher goroutines, and
cancellation of the context.
-/

namespace stm

mutual

/-- Go `Msg` (stm.go line 11): an interface value — nil, an opaque user value,
or the package-internal `batched` slice of commands (line 31).  Slice elements
are Go `Cmd` values, which may themselves be nil, hence `Option`. -/
inductive Msg (α : Type) : Type where
  | nil : Msg α
  | user : α → Msg α
  | batched : List (Option (Cmd α)) → Msg α

/-- Go `Cmd func() Msg` (stm.go line 16), restricted to the thunks the engine
can observe: a constant thunk (`ToCmd`, and any user closure, which is
determined by the message it returns), the closure built by `Batch`
(lines 55-63), and the closure built by `Timer` (lines 83-92). -/
inductive Cmd (α : Type) : Type where
  | toCmd : Msg α → Cmd α
  | batchC : List (Option (Cmd α)) → Cmd α
  | timer : Int → Msg α → Cmd α

end

variable {α σ : Type}

/-- Body of the closure returned by `Batch` (stm.go lines 56-61):
`b := batched{}; for _, cmd := range cmds { b = append(b, cmd) }; return b`. -/
def batchBody (cmds : List (Option (Cmd α))) : List (Option (Cmd α)) :=
  cmds.foldl (fun b cmd => b ++ [cmd]) []

/-- Clamp applied inside the `Timer` closure (stm.go lines 85-87):
`if t < 0 { t = 0 }`; the closure then waits `t` on its own goroutine. -/
def timerWait (t : Int) : Int :=
  if t < 0 then 0 else t

/-- Invocation `cmd()` of a (non-nil) command: the message it returns. -/
def Cmd.run : Cmd α → Msg α
  | .toCmd msg => msg
  | .batchC cmds => .batched (batchBody cmds)
  | .timer _ msg => msg

/-- Real-time suspension performed by a command's invocation before it
returns: `Timer`'s clamped wait on `timer.C` (stm.go lines 88-89); every other
thunk in the engine returns without waiting. -/
def Cmd.wait : Cmd α → Int
  | .timer t _ => timerWait t
  | _ => 0

/-- Go `Batch(cmds ...Cmd) Cmd` (stm.go lines 55-63): returns the closure
(represented by the `batchC` constructor; its invocation is `Cmd.run`). -/
def Batch (cmds : List (Option (Cmd α))) : Cmd α :=
  .batchC cmds

/-- Go `ToCmd(msg Msg) Cmd` (stm.go lines 66-70): a thunk returning `msg`. -/
def ToCmd (msg : Msg α) : Cmd α :=
  .toCmd msg

/-- Go `Timer(t time.Duration, timeExceedMessage Msg) Cmd` (stm.go
lines 83-92). -/
def Timer (t : Int) (timeExceedMessage : Msg α) : Cmd α :=
  .timer t timeExceedMessage

mutual

/-- Go `(stm *Stm) Send(cmd Cmd)` (stm.go lines 113-133), as the list of
messages the spawned goroutine (and its recursive unrolls) eventually pushes
onto `stm.messages`: nil commands are dropped (line 114), a nil result is
dropped (lines 119-121), a `batched` result is recursively sent command by
command (lines 123-127), any other result is enqueued (line 130). -/
def Send : Option (Cmd α) → List (Msg α)
  | none => []
  | some c =>
    match h : c.run with
    | .nil => []
    | .batched cmds => sendList cmds
    | .user a => [.user a]
  termination_by oc => sizeOf oc
  decreasing_by
    have key : ∀ (l acc : List (Option (Cmd α))),
        List.foldl (fun b cmd => b ++ [cmd]) acc l = acc ++ l := by
      intro l
      induction l with
      | nil => intro acc; simp
      | cons x xs ih => intro acc; rw [List.foldl_cons, ih]; simp
    cases c with
    | toCmd msg =>
      simp only [Cmd.run] at h
      subst h
      simp
      omega
    | batchC cmds0 =>
      simp only [Cmd.run, batchBody, key, List.nil_append] at h
      injection h with h
      subst h
      simp
      omega
    | timer t msg =>
      simp only [Cmd.run] at h
      subst h
      simp
      omega

/-- The loop `for _, batchCmd := range batch { stm.Send(batchCmd) }`
(stm.go lines 125-127). -/
def sendList : List (Option (Cmd α)) → List (Msg α)
  | [] => []
  | oc :: rest => Send oc ++ sendList rest
  termination_by cmds => sizeOf cmds

end

/-- Go `State` interface (stm.go lines 19-29), consumed as a pure interface:
a user-supplied state representation `σ` together with its `Update` and
`Init` methods.  `Update` returns the next state and a possibly-nil command;
`Init` returns a possibly-nil initialization command. -/
structure StateImpl (α σ : Type) where
  update : σ → Msg α → σ × Option (Cmd α)
  init : σ → Option (Cmd α)

/-- Go `TransitionTo(state State, cmds ...Cmd) (State, Cmd)` (stm.go
lines 75-79): `init := state.Init(); cmds = append([]Cmd{init}, cmds...);
return state, Batch(cmds...)`. -/
def TransitionTo (impl : StateImpl α σ) (state : σ) (cmds : List (Option (Cmd α))) :
    σ × Option (Cmd α) :=
  let init := impl.init state
  let cmds := [init] ++ cmds
  (state, some (Batch cmds))

/-- Go struct `Stm` (stm.go lines 40-45): the buffered channel `messages` is
modeled as its contents plus its capacity; the context `ctx` as the flag
telling whether its cancellation signal has fired. -/
structure Stm (α σ : Type) where
  messages : List (Msg α)
  capacity : Int
  state : σ
  canceled : Bool

/-- Go `const DefaultMessageBufferSize = 10` (stm.go line 52). -/
def DefaultMessageBufferSize : Int := 10

/-- Go `StmOptions func(*Stm)` (stm.go line 48). -/
def StmOptions (α σ : Type) : Type :=
  Stm α σ → Stm α σ

/-- Go `WithMessageBufferSize(size int) StmOptions` (stm.go lines 153-157):
`stm.messages = make(chan Msg, size)` replaces the channel by a fresh, empty
one of capacity `size`. -/
def WithMessageBufferSize (size : Int) : StmOptions α σ :=
  fun stm => { stm with messages := [], capacity := size }

/-- Go `New(ctx, initialState, opts...)` (stm.go lines 137-150): builds the
struct with a fresh channel of the default capacity, applies each option in
order, and starts the scheduler loop (the loop is modeled by `Step` on
`startConfig`). -/
def New (canceled : Bool) (initialState : σ) (opts : List (StmOptions α σ)) : Stm α σ :=
  opts.foldl (fun stm opt => opt stm)
    { messages := [], capacity := DefaultMessageBufferSize,
      state := initialState, canceled := canceled }

/-- Commands forwarded to the dispatcher by one iteration of `Stm.loop`
(stm.go lines 104-106): `if cmd != nil { stm.Send(cmd) }`, expressed as the
messages those dispatches eventually enqueue. -/
def loopDispatch (oc : Option (Cmd α)) : List (Msg α) :=
  match oc with
  | some cmd => Send (some cmd)
  | none => []

/-- Global configuration of a running machine: the current state and channel
contents (`Stm` fields), plus the results of dispatcher goroutines that have
not yet been pushed onto the channel (`pending`), whether the context's
cancellation signal has fired (`canceled`), and whether the scheduler loop
has returned (`stopped`). -/
structure Config (α σ : Type) where
  state : σ
  queue : List (Msg α)
  capacity : Int
  pending : List (Msg α)
  canceled : Bool
  stopped : Bool

/-- Configuration at the end of `New` (stm.go line 148): the loop starts with
no goroutine in flight and has not returned. -/
def startConfig (stm : Stm α σ) : Config α σ :=
  { state := stm.state, queue := stm.messages, capacity := stm.capacity,
    pending := [], canceled := stm.canceled, stopped := false }

/-- Small-step semantics of the running machine.  `cancel` and `recv` are the
two arms of the `select` in `Stm.loop` (stm.go lines 96-107); Go's `select`
picks nondeterministically among ready arms, so both are enabled whenever
their guard holds.  `fire` is the context's cancellation signal firing.
`deliver` is a dispatcher goroutine pushing its computed message onto the
channel (stm.go line 130), enabled only when the buffer has room; goroutines
finish in any order, so any pending message may be delivered.  `send` is an
external call to `Stm.Send` (stm.go lines 113-133), which returns immediately
and leaves its messages to be delivered asynchronously. -/
inductive Step (impl : StateImpl α σ) : Config α σ → Config α σ → Prop where
  | cancel (c : Config α σ) (h₁ : c.stopped = false) (h₂ : c.canceled = true) :
      Step impl c { c with stopped := true }
  | recv (c : Config α σ) (m : Msg α) (rest : List (Msg α))
      (h₁ : c.stopped = false) (h₂ : c.queue = m :: rest) :
      Step impl c { c with
        state := (impl.update c.state m).1,
        queue := rest,
        pending := c.pending ++ loopDispatch (impl.update c.state m).2 }
  | fire (c : Config α σ) (h : c.canceled = false) :
      Step impl c { c with canceled := true }
  | deliver (c : Config α σ) (l₁ l₂ : List (Msg α)) (m : Msg α)
      (h₁ : c.pending = l₁ ++ m :: l₂)
      (h₂ : (c.queue.length : Int) < c.capacity) :
      Step impl c { c with queue := c.queue ++ [m], pending := l₁ ++ l₂ }
  | send (c : Config α σ) (oc : Option (Cmd α)) :
      Step impl c { c with pending := c.pending ++ Send oc }

/-- Reflexive-transitive closure of `Step`: all executions of the machine. -/
def StepStar (impl : StateImpl α σ) : Config α σ → Config α σ → Prop :=
  Relation.ReflTransGen (Step impl)

/-- A degenerate user state: ignores every message, never emits a command. -/
def unitImpl : StateImpl Nat Unit :=
  { update := fun _ _ => ((), none), init := fun _ => none }

/-- A user state that reacts to every message with `ToCmd (Msg.user 9)`. -/
def pingImpl : StateImpl Nat Unit :=
  { update := fun _ _ => ((), some (ToCmd (Msg.user 9))), init := fun _ => none }

/-- A configuration whose context is already canceled but whose loop has not
yet observed the signal, with one message waiting in the queue. -/
def cfgCanceled : Config Nat Unit :=
  { state := (), queue := [Msg.user 0], capacity := 10,
    pending := [], canceled := true, stopped := false }

/-- The configuration `cfgCanceled` steps to when the loop's `select` picks
the message arm rather than the cancellation arm. -/
def cfgCanceledRecv : Config Nat Unit :=
  { state := (), queue := [], capacity := 10,
    pending := [], canceled := true, stopped := false }

/-- A configuration whose loop has already observed cancellation. -/
def cfgStopped : Config Nat Unit :=
  { state := (), queue := [Msg.user 3], capacity := 10,
    pending := [Msg.user 4], canceled := true, stopped := true }

/-- A fresh machine awaiting its first message. -/
def cfgFresh : Config Nat Unit :=
  startConfig (New false () [])

/-- `cfgFresh` after an external `Send (ToCmd (Msg.user 7))` whose goroutine
has computed its message but not yet pushed it. -/
def cfgPending : Config Nat Unit :=
  { cfgFresh with pending := [Msg.user 7] }

/-- `cfgPending` after the goroutine pushes its message onto the channel. -/
def cfgQueued : Config Nat Unit :=
  { cfgFresh with queue := [Msg.user 7] }

/-- A configuration with one message queued, used to exercise the loop. -/
def cfgOneMsg : Config Nat Unit :=
  { state := (), queue := [Msg.user 1], capacity := 10,
    pending := [], canceled := false, stopped := false }

theorem foldl_append_id (l acc : List (Option (Cmd α))) :
    List.foldl (fun b cmd => b ++ [cmd]) acc l = acc ++ l := by
  induction l generalizing acc with
  | nil => simp
  | cons x xs ih => rw [List.foldl_cons, ih]; simp

theorem batchBody_id (cmds : List (Option (Cmd α))) : batchBody cmds = cmds := by
  rw [batchBody, foldl_append_id, List.nil_append]

theorem Send_nil_cmd : Send (none : Option (Cmd α)) = [] :=
  Send.eq_1

theorem Send_run_nil (c : Cmd α) (h : c.run = Msg.nil) : Send (some c) = [] := by
  rw [Send.eq_2]
  split
  · rfl
  · rename_i cmds heq; rw [h] at heq; cases heq
  · rename_i a heq; rw [h] at heq; cases heq

theorem Send_run_batched (c : Cmd α) (cmds : List (Option (Cmd α)))
    (h : c.run = Msg.batched cmds) : Send (some c) = sendList cmds := by
  rw [Send.eq_2]
  split
  · rename_i heq; rw [h] at heq; cases heq
  · rename_i cs heq; rw [h] at heq; cases heq; rfl
  · rename_i a heq; rw [h] at heq; cases heq

theorem Send_run_user (c : Cmd α) (a : α) (h : c.run = Msg.user a) :
    Send (some c) = [Msg.user a] := by
  rw [Send.eq_2]
  split
  · rename_i heq; rw [h] at heq; cases heq
  · rename_i cs heq; rw [h] at heq; cases heq
  · rename_i a' heq; rw [h] at heq; cases heq; rfl

theorem Batch_run (cmds : List (Option (Cmd α))) :
    (Batch cmds).run = Msg.batched cmds := by
  rw [Batch, Cmd.run, batchBody_id]

theorem send_user_only :
    ∀ (oc : Option (Cmd α)), ∀ m ∈ Send oc, ∃ a, m = Msg.user a := by
  intro oc
  refine Send.induct (fun oc => ∀ m ∈ Send oc, ∃ a, m = Msg.user a)
    (fun cs => ∀ m ∈ sendList cs, ∃ a, m = Msg.user a) ?_ ?_ ?_ ?_ ?_ ?_ oc
  · intro m hm; rw [Send_nil_cmd] at hm; cases hm
  · intro c h m hm; rw [Send_run_nil c h] at hm; cases hm
  · intro c cmds h ih m hm; rw [Send_run_batched c cmds h] at hm; exact ih m hm
  · intro c a h m hm
    rw [Send_run_user c a h] at hm
    exact ⟨a, List.eq_of_mem_singleton hm⟩
  · intro m hm; rw [sendList.eq_1] at hm; cases hm
  · intro oc' rest ih₁ ih₂ m hm
    rw [sendList.eq_2] at hm
    rcases List.mem_append.mp hm with h | h
    · exact ih₁ m h
    · exact ih₂ m h

theorem sendList_user_only :
    ∀ (cs : List (Option (Cmd α))), ∀ m ∈ sendList cs, ∃ a, m = Msg.user a := by
  intro cs
  induction cs with
  | nil => intro m hm; rw [sendList.eq_1] at hm; cases hm
  | cons oc rest ih =>
      intro m hm
      rw [sendList.eq_2] at hm
      rcases List.mem_append.mp hm with h | h
      · exact send_user_only oc m h
      · exact ih m h

/-- C3: TransitionTo(s, cs...) returns (s, Batch(init, cs...)) with
init = s.Init() included and positioned first, follow-ups after it in their
given order; invoking the returned batch wraps exactly that command list. -/
theorem c3_transition_init_first (impl : StateImpl α σ) (s : σ)
    (cs : List (Option (Cmd α))) :
    TransitionTo impl s cs = (s, some (Batch (impl.init s :: cs))) ∧
    (Batch (impl.init s :: cs)).run = Msg.batched (impl.init s :: cs) :=
  ⟨rfl, Batch_run (impl.init s :: cs)⟩

/-- C5: Timer(d, m) yields exactly m when invoked, after suspending its own
execution path for the duration clamped at zero: a negative d behaves as
d = 0, and the wait is never smaller than d nor negative, so m arrives no
earlier than d after the command starts executing. -/
theorem c5_timer_clamped (t : Int) (m : Msg α) :
    (Timer t m).run = m ∧
    (Timer t m).wait = timerWait t ∧
    timerWait t = (if t < 0 then 0 else t) ∧
    (t < 0 → (Timer t m).wait = 0) ∧
    0 ≤ (Timer t m).wait ∧
    t ≤ (Timer t m).wait := by
  refine ⟨rfl, rfl, rfl, ?_, ?_, ?_⟩
  · intro h; simp [Timer, Cmd.wait, timerWait, h]
  · simp only [Timer, Cmd.wait, timerWait]; split <;> omega
  · simp only [Timer, Cmd.wait, timerWait]; split <;> omega

theorem c5_timer_clamped_witness :
    (Timer (-2) (Msg.user (0 : Nat))).wait = 0 ∧
    (Timer (-2) (Msg.user (0 : Nat))).run = Msg.user 0 :=
  ⟨(c5_timer_clamped (-2) (Msg.user 0)).2.2.2.1 (by decide),
   (c5_timer_clamped (-2) (Msg.user 0)).1⟩

/-- C7: Batch(cs...) returns a command whose invocation wraps exactly the
given commands, in order, without invoking any of them (the result contains
the commands themselves, and the invocation performs no wait); Batch() with
zero commands yields an empty Batch, which unrolls to a no-op. -/
theorem c7_batch_wraps (cs : List (Option (Cmd α))) :
    (Batch cs).run = Msg.batched cs ∧
    batchBody cs = cs ∧
    (Batch cs).wait = 0 ∧
    (Batch ([] : List (Option (Cmd α)))).run = Msg.batched ([] : List (Option (Cmd α))) ∧
    Send (some (Batch ([] : List (Option (Cmd α))))) = [] := by
  refine ⟨Batch_run cs, batchBody_id cs, rfl, Batch_run [], ?_⟩
  rw [Send_run_batched (Batch []) [] (Batch_run []), sendList.eq_1]

/-- C9: a machine built by New with no options has a message queue of
capacity exactly 10 (the default), and WithMessageBufferSize(n) replaces
that capacity with n, already in effect in the configuration the scheduler
loop starts from. -/
theorem c9_buffer_capacity (b : Bool) (s : σ) (n : Int) :
    DefaultMessageBufferSize = 10 ∧
    (New b s ([] : List (StmOptions α σ))).capacity = 10 ∧
    (New b s ([WithMessageBufferSize n] : List (StmOptions α σ))).capacity = n ∧
    (startConfig (New b s ([WithMessageBufferSize n] : List (StmOptions α σ)))).capacity = n :=
  ⟨rfl, rfl, rfl, rfl⟩

/-- C1: for every machine state and every message at the head of the queue,
the scheduler loop's message arm invokes update on the current state with
that message, the returned state becomes the new current state, and the
returned command, when present, is submitted to the dispatcher via Send,
while an absent command dispatches nothing; moreover any step that consumes
the queued message is exactly this one. -/
theorem c1_scheduler_loop (impl : StateImpl α σ) (c : Config α σ) (m : Msg α)
    (rest : List (Msg α)) (h₁ : c.stopped = false) (h₂ : c.queue = m :: rest) :
    Step impl c { c with
      state := (impl.update c.state m).1,
      queue := rest,
      pending := c.pending ++ loopDispatch (impl.update c.state m).2 } ∧
    (∀ cmd, (impl.update c.state m).2 = some cmd →
      loopDispatch (impl.update c.state m).2 = Send (some cmd)) ∧
    ((impl.update c.state m).2 = none →
      loopDispatch (impl.update c.state m).2 = []) ∧
    (∀ c', Step impl c c' → c'.queue.length + 1 = c.queue.length →
      c' = { c with
        state := (impl.update c.state m).1,
        queue := rest,
        pending := c.pending ++ loopDispatch (impl.update c.state m).2 }) := by
  refine ⟨Step.recv c m rest h₁ h₂, ?_, ?_, ?_⟩
  · intro cmd hc; rw [hc]; rfl
  · intro hc; rw [hc]; rfl
  · intro c' hstep hlen
    cases hstep with
    | cancel g₁ g₂ => simp at hlen
    | recv m' rest' g₁ g₂ =>
        rw [h₂] at g₂
        injection g₂ with e₁ e₂
        subst e₁; subst e₂
        rfl
    | fire g => simp at hlen
    | deliver l₁ l₂ m' g₁ g₂ => simp at hlen; omega
    | send oc => simp at hlen

theorem c1_scheduler_loop_witness :
    Step pingImpl cfgOneMsg { cfgOneMsg with
      state := (pingImpl.update cfgOneMsg.state (Msg.user 1)).1,
      queue := [],
      pending := cfgOneMsg.pending ++
        loopDispatch (pingImpl.update cfgOneMsg.state (Msg.user 1)).2 } ∧
    loopDispatch (pingImpl.update cfgOneMsg.state (Msg.user 1)).2 =
      Send (some (ToCmd (Msg.user 9))) :=
  ⟨(c1_scheduler_loop pingImpl cfgOneMsg (Msg.user 1) [] rfl rfl).1,
   (c1_scheduler_loop pingImpl cfgOneMsg (Msg.user 1) [] rfl rfl).2.1
     (ToCmd (Msg.user 9)) rfl⟩

/-- C2: dispatching a command whose invocation yields a Batch of commands
c1..cn recursively Sends each ci, so the enqueued messages are exactly the
concatenation of each ci's own deliveries, once each and in order; the Batch
value itself is never among the enqueued messages. -/
theorem c2_batch_fanout (cs : List (Option (Cmd α))) :
    Send (some (Batch cs)) = sendList cs ∧
    sendList cs = (cs.map (fun oc => Send oc)).flatten ∧
    (∀ m, m ∈ Send (some (Batch cs)) → ∀ ds, m ≠ Msg.batched ds) := by
  refine ⟨Send_run_batched (Batch cs) cs (Batch_run cs), ?_, ?_⟩
  · induction cs with
    | nil => rw [sendList.eq_1]; rfl
    | cons oc rest ih => rw [sendList.eq_2, ih]; simp
  · intro m hm ds
    obtain ⟨a, rfl⟩ := send_user_only (some (Batch cs)) m hm
    intro h; cases h

theorem c2_batch_fanout_witness :
    Send (some (Batch [some (ToCmd (Msg.user (3 : Nat))), none])) =
      sendList [some (ToCmd (Msg.user (3 : Nat))), none] ∧
    Msg.user (3 : Nat) ≠ Msg.batched [] := by
  refine ⟨(c2_batch_fanout [some (ToCmd (Msg.user 3)), none]).1,
    (c2_batch_fanout [some (ToCmd (Msg.user 3)), none]).2.2 (Msg.user 3) ?_ []⟩
  rw [Send_run_batched _ _ (Batch_run _), sendList.eq_2,
    Send_run_user (ToCmd (Msg.user 3)) 3 rfl]
  exact List.mem_append.mpr (Or.inl (List.mem_singleton.mpr rfl))

/-- C4: sending an absent (nil) command, and dispatching a command whose
invocation yields an absent (nil) message, are complete no-ops at every
layer: Send drops a nil command without executing anything, the dispatcher
drops a nil result without enqueueing, the batch unroll skips nil members,
and at the machine level such a Send is a self-loop leaving queue, state and
everything else unchanged, with no error surfaced. -/
theorem c4_nil_noop (impl : StateImpl α σ) (cfg : Config α σ) (c : Cmd α)
    (cs : List (Option (Cmd α))) :
    Send (none : Option (Cmd α)) = [] ∧
    (c.run = Msg.nil → Send (some c) = []) ∧
    (ToCmd (Msg.nil : Msg α)).run = Msg.nil ∧
    sendList (none :: cs) = sendList cs ∧
    Step impl cfg cfg := by
  refine ⟨Send_nil_cmd, fun h => Send_run_nil c h, rfl, ?_, ?_⟩
  · rw [sendList.eq_2, Send_nil_cmd, List.nil_append]
  · have h : Step impl cfg { cfg with pending := cfg.pending ++ Send (none : Option (Cmd α)) } :=
      Step.send cfg none
    rw [Send_nil_cmd, List.append_nil] at h
    exact h

theorem c4_nil_noop_witness :
    Send (some (ToCmd (Msg.nil : Msg Nat))) = [] ∧
    Step unitImpl cfgFresh cfgFresh :=
  ⟨(c4_nil_noop unitImpl cfgFresh (ToCmd Msg.nil) []).2.1 rfl,
   (c4_nil_noop unitImpl cfgFresh (ToCmd Msg.nil) []).2.2.2.2⟩

theorem step_stopped_inv (impl : StateImpl α σ) (c c' : Config α σ)
    (hs : c.stopped = true) (h : Step impl c c') :
    c'.stopped = true ∧ c'.state = c.state ∧ ∃ t, c'.queue = c.queue ++ t := by
  cases h with
  | cancel h₁ h₂ => rw [hs] at h₁; cases h₁
  | recv m rest h₁ h₂ => rw [hs] at h₁; cases h₁
  | fire g => exact ⟨hs, rfl, [], by simp⟩
  | deliver l₁ l₂ m h₁ h₂ => exact ⟨hs, rfl, [m], rfl⟩
  | send oc => exact ⟨hs, rfl, [], by simp⟩

theorem stepStar_stopped_inv (impl : StateImpl α σ) (c c' : Config α σ)
    (hs : c.stopped = true) (h : StepStar impl c c') :
    c'.stopped = true ∧ c'.state = c.state ∧ ∃ t, c'.queue = c.queue ++ t := by
  induction h with
  | refl => exact ⟨hs, rfl, [], by simp⟩
  | tail hab hbc ih =>
      obtain ⟨i₁, i₂, t, i₃⟩ := ih
      obtain ⟨j₁, j₂, t', j₃⟩ := step_stopped_inv impl _ _ i₁ hbc
      exact ⟨j₁, j₂.trans i₂, t ++ t', by rw [j₃, i₃, List.append_assoc]⟩

/-- C6 counterexample: the claim says that once the cancellation signal has
fired no further message is ever consumed and update is never invoked again.
But Go's select does not prioritize the Done arm: from `cfgCanceled`, whose
context is already canceled, the loop may still take the message arm,
consuming the queued message and invoking update. -/
theorem c6_cancellation_counterexample :
    cfgCanceled.canceled = true ∧
    cfgCanceled.queue = [Msg.user 0] ∧
    Step unitImpl cfgCanceled cfgCanceledRecv ∧
    cfgCanceledRecv.queue = [] :=
  ⟨rfl, rfl, Step.recv cfgCanceled (Msg.user 0) [] rfl rfl, rfl⟩

/-- C6 (amended): once the scheduler loop has observed the cancellation
signal and returned, termination is permanent: no further message is ever
consumed from the queue (the queue can only grow), update is never invoked
again and the current state is never replaced, and a later Send call still
succeeds (as a step that merely records the dispatched messages) without
panic; before the loop observes the signal, already-queued messages may
still be consumed because select does not prioritize the Done arm. -/
theorem c6_cancellation_permanent (impl : StateImpl α σ) (c c' : Config α σ)
    (hs : c.stopped = true) (h : StepStar impl c c') :
    c'.stopped = true ∧ c'.state = c.state ∧ (∃ t, c'.queue = c.queue ++ t) ∧
    (∀ oc : Option (Cmd α), Step impl c' { c' with pending := c'.pending ++ Send oc }) := by
  obtain ⟨i₁, i₂, t, i₃⟩ := stepStar_stopped_inv impl c c' hs h
  exact ⟨i₁, i₂, ⟨t, i₃⟩, fun oc => Step.send c' oc⟩

theorem c6_cancellation_permanent_witness :
    cfgStopped.stopped = true ∧
    Step unitImpl cfgStopped
      { cfgStopped with pending := cfgStopped.pending ++ Send (some (ToCmd (Msg.user 5))) } :=
  ⟨(c6_cancellation_permanent unitImpl cfgStopped cfgStopped rfl
      Relation.ReflTransGen.refl).1,
   (c6_cancellation_permanent unitImpl cfgStopped cfgStopped rfl
      Relation.ReflTransGen.refl).2.2.2 (some (ToCmd (Msg.user 5)))⟩

theorem step_user_inv (impl : StateImpl α σ) (c c' : Config α σ)
    (hq : ∀ m ∈ c.queue, ∃ a, m = Msg.user a)
    (hp : ∀ m ∈ c.pending, ∃ a, m = Msg.user a)
    (h : Step impl c c') :
    (∀ m ∈ c'.queue, ∃ a, m = Msg.user a) ∧
    (∀ m ∈ c'.pending, ∃ a, m = Msg.user a) := by
  cases h with
  | cancel h₁ h₂ => exact ⟨hq, hp⟩
  | recv m rest h₁ h₂ =>
      constructor
      · intro x hx
        exact hq x (by rw [h₂]; exact List.mem_cons_of_mem _ hx)
      · intro x hx
        rcases List.mem_append.mp hx with hx' | hx'
        · exact hp x hx'
        · cases hcmd : (impl.update c.state m).2 with
          | none => rw [hcmd] at hx'; cases hx'
          | some cmd =>
              rw [hcmd] at hx'
              exact send_user_only (some cmd) x hx'
  | fire g => exact ⟨hq, hp⟩
  | deliver l₁ l₂ m h₁ h₂ =>
      constructor
      · intro x hx
        rcases List.mem_append.mp hx with hx' | hx'
        · exact hq x hx'
        · have hxm : x = m := List.eq_of_mem_singleton hx'
          subst hxm
          exact hp x (by rw [h₁]; exact List.mem_append.mpr (Or.inr (List.mem_cons_self _ _)))
      · intro x hx
        apply hp
        rw [h₁]
        rcases List.mem_append.mp hx with hx' | hx'
        · exact List.mem_append.mpr (Or.inl hx')
        · exact List.mem_append.mpr (Or.inr (List.mem_cons_of_mem _ hx'))
  | send oc =>
      refine ⟨hq, ?_⟩
      intro x hx
      rcases List.mem_append.mp hx with hx' | hx'
      · exact hp x hx'
      · exact send_user_only oc x hx'

theorem stepStar_user_inv (impl : StateImpl α σ) (c c' : Config α σ)
    (hq : ∀ m ∈ c.queue, ∃ a, m = Msg.user a)
    (hp : ∀ m ∈ c.pending, ∃ a, m = Msg.user a)
    (h : StepStar impl c c') :
    (∀ m ∈ c'.queue, ∃ a, m = Msg.user a) ∧
    (∀ m ∈ c'.pending, ∃ a, m = Msg.user a) := by
  induction h with
  | refl => exact ⟨hq, hp⟩
  | tail hab hbc ih => exact step_user_inv impl _ _ ih.1 ih.2 hbc

theorem new_recognized_opts (opts : List (StmOptions α σ))
    (h : ∀ o ∈ opts, ∃ n, o = WithMessageBufferSize n) :
    ∀ stm0 : Stm α σ, stm0.messages = [] →
      (opts.foldl (fun stm opt => opt stm) stm0).messages = [] ∧
      (opts.foldl (fun stm opt => opt stm) stm0).state = stm0.state ∧
      (opts.foldl (fun stm opt => opt stm) stm0).canceled = stm0.canceled := by
  induction opts with
  | nil => intro stm0 h0; exact ⟨h0, rfl, rfl⟩
  | cons o rest ih =>
      intro stm0 h0
      obtain ⟨n, rfl⟩ := h o (List.mem_cons_self o rest)
      have hrest := ih (fun o' ho' => h o' (List.mem_cons_of_mem _ ho'))
        (WithMessageBufferSize n stm0) rfl
      simpa [WithMessageBufferSize] using hrest

/-- C8: New(ctx, initialState, opts...) never invokes initialState.Init():
construction merely builds the struct (whose embedding takes no state
implementation at all, since no method of the state is called), so the
machine starts with the initial state unchanged, an empty queue, and no
dispatched work — no message from Init can reach the queue unless the caller
dispatches it; the only engine operation invoking Init is TransitionTo,
whose result carries `impl.init`. -/
theorem c8_new_no_init (b : Bool) (s : σ) (opts : List (StmOptions α σ))
    (h : ∀ o ∈ opts, ∃ n, o = WithMessageBufferSize n) :
    (New b s opts).messages = [] ∧
    (New b s opts).state = s ∧
    (New b s opts).canceled = b ∧
    (startConfig (New b s opts)).pending = [] ∧
    (startConfig (New b s opts)).queue = [] ∧
    (∀ (impl : StateImpl α σ) (cs : List (Option (Cmd α))),
      TransitionTo impl s cs = (s, some (Batch (impl.init s :: cs)))) := by
  obtain ⟨h₁, h₂, h₃⟩ := new_recognized_opts opts h
    { messages := [], capacity := DefaultMessageBufferSize, state := s, canceled := b } rfl
  exact ⟨h₁, h₂, h₃, rfl, h₁, fun impl cs => rfl⟩

theorem c8_new_no_init_witness :
    (New false () ([] : List (StmOptions Nat Unit))).messages = [] ∧
    (New false () ([] : List (StmOptions Nat Unit))).state = () :=
  ⟨(c8_new_no_init false () ([] : List (StmOptions Nat Unit))
      (fun o ho => absurd ho (List.not_mem_nil o))).1,
   (c8_new_no_init false () ([] : List (StmOptions Nat Unit))
      (fun o ho => absurd ho (List.not_mem_nil o))).2.1⟩

/-- C10: in every reachable execution of a machine built by New with
recognized options, every message in the queue — hence every message the
scheduler loop ever hands to update — is a non-nil user value and never the
engine's internal batched marker: the dispatcher discards nil results and
unrolls batched results instead of enqueueing them. -/
theorem c10_update_user_only (impl : StateImpl α σ) (b : Bool) (s : σ)
    (opts : List (StmOptions α σ)) (c : Config α σ)
    (hopts : ∀ o ∈ opts, ∃ n, o = WithMessageBufferSize n)
    (h : StepStar impl (startConfig (New b s opts)) c) :
    ∀ m ∈ c.queue, (∃ a, m = Msg.user a) ∧ m ≠ Msg.nil ∧ ∀ ds, m ≠ Msg.batched ds := by
  have hq0 : (startConfig (New b s opts)).queue = [] :=
    (new_recognized_opts opts hopts
      { messages := [], capacity := DefaultMessageBufferSize, state := s, canceled := b } rfl).1
  have hinv := stepStar_user_inv impl (startConfig (New b s opts)) c
    (by rw [hq0]; intro m hm; cases hm)
    (by intro m hm; cases hm) h
  intro m hm
  obtain ⟨a, rfl⟩ := hinv.1 m hm
  refine ⟨⟨a, rfl⟩, ?_, ?_⟩
  · intro hcon; cases hcon
  · intro ds hcon; cases hcon

theorem c10_update_user_only_witness :
    Msg.user (7 : Nat) ≠ Msg.nil ∧ Msg.user (7 : Nat) ≠ Msg.batched [] := by
  have e : Send (some (ToCmd (Msg.user (7 : Nat)))) = [Msg.user 7] :=
    Send_run_user (ToCmd (Msg.user 7)) 7 rfl
  have s1 : Step unitImpl cfgFresh cfgPending := by
    have h : Step unitImpl cfgFresh
        { cfgFresh with pending := cfgFresh.pending ++ Send (some (ToCmd (Msg.user 7))) } :=
      Step.send cfgFresh (some (ToCmd (Msg.user (7 : Nat))))
    rw [e] at h
    exact h
  have s2 : Step unitImpl cfgPending cfgQueued := by
    exact Step.deliver cfgPending [] [] (Msg.user 7) rfl (by decide)
  have hstar : StepStar unitImpl (startConfig (New false () [])) cfgQueued :=
    Relation.ReflTransGen.tail (Relation.ReflTransGen.single s1) s2
  have h := c10_update_user_only unitImpl false () [] cfgQueued
    (fun o ho => absurd ho (List.not_mem_nil o)) hstar
    (Msg.user 7) (List.mem_cons_self _ _)
  exact ⟨h.2.1, h.2.2 []⟩

end stm
